import Mathlib

/-!
Verification development for the `doloop` task-loop library
(`doloop.py`): a MySQL-backed lease-based work queue.

The table created by `doloop.create` has one row per id:

  `id` (primary key), `last_updated` (nullable INT timestamp),
  `lock_until` (nullable INT timestamp).

We embed the table as a list of rows; timestamps and durations are
integers (`Time`) — the columns are SQL `INT`s and `UNIX_TIMESTAMP()`
is integral.  Python accepts floats for `lock_for` / `min_loop_time`;
the model restricts them to integral values, keeping the int/float
type tag separately where the distinction matters (parameter
validation, `stats`).  Every operation of the library is run by
`_run` under a table-level WRITE lock (or in a single transaction), so
each call is an atomic state transition on the table; concurrent calls
are serialized and are modelled as sequential composition.

SQL semantics used by the embedding:

* `WHERE` conditions follow three-valued logic: a comparison with NULL
  is not true, so e.g. `lock_until <= now` selects only non-null
  `lock_until`.
* `ORDER BY` is modelled as a stable insertion sort (`sortByLe`) of the
  stored row order by the query's sort keys, with NULL sorting first
  (ascending).  Rows tying on all sort keys keep their storage order,
  which is one realization of the storage-defined order MySQL may
  return for ties.
* `INSERT IGNORE` appends rows for ids not already present (left to
  right, also deduplicating within the statement) and reports the
  number of rows actually inserted.
* `UPDATE` row counts depend on the connection configuration: MySQL
  reports either rows *found* (matched) or rows *affected* (changed);
  this choice is the `foundRows` parameter where it matters.
-/

namespace Doloop

/-- Timestamps and durations (seconds). -/
abbrev Time := Int

/-- One row of a task-loop table (`create` in doloop.py). -/
structure Row where
  id : Int
  last_updated : Option Time
  lock_until : Option Time
deriving DecidableEq

/-- A task-loop table: rows in storage order. -/
abbrev Table := List Row

/-! ### Stable sort used to model ORDER BY -/

/-- Insert `a` before the first element `b` with `le a b`; used to model
a stable sort. -/
def insertLe (le : α → α → Bool) (a : α) : List α → List α
  | [] => [a]
  | b :: l => if le a b then a :: b :: l else b :: insertLe le a l

/-- Stable insertion sort: an element that ties with a later-stored
element under `le` stays before it. -/
def sortByLe (le : α → α → Bool) : List α → List α
  | [] => []
  | a :: l => insertLe le a (sortByLe le l)

theorem perm_insertLe (le : α → α → Bool) (a : α) (l : List α) :
    List.Perm (insertLe le a l) (a :: l) := by
  induction l with
  | nil => simp [insertLe]
  | cons b l ih =>
    simp only [insertLe]
    split
    · exact List.Perm.refl _
    · exact (ih.cons b).trans (List.Perm.swap a b l)

theorem perm_sortByLe (le : α → α → Bool) (l : List α) :
    List.Perm (sortByLe le l) l := by
  induction l with
  | nil => simp [sortByLe]
  | cons a l ih => exact (perm_insertLe le a (sortByLe le l)).trans (ih.cons a)

/-! ### SQL comparison and ordering helpers -/

/-- Ascending comparison of nullable values, NULL first (MySQL ORDER BY
ascending puts NULLs first). -/
def optLeT : Option Time → Option Time → Bool
  | none, _ => true
  | some _, none => false
  | some a, some b => decide (a ≤ b)

/-- Strict version of `optLeT`. -/
def optLtT : Option Time → Option Time → Bool
  | none, none => false
  | none, some _ => true
  | some _, none => false
  | some a, some b => decide (a < b)

/-- Sort order of `get`'s first query:
`ORDER BY lock_until, last_updated` (doloop.py line 502). -/
def bumpedLe (r s : Row) : Bool :=
  optLtT r.lock_until s.lock_until ||
    (decide (r.lock_until = s.lock_until) && optLeT r.last_updated s.last_updated)

/-- Sort order of `get`'s second query:
`ORDER BY last_updated` (doloop.py line 509). -/
def unlockedLe (r s : Row) : Bool :=
  optLeT r.last_updated s.last_updated

/-! ### The `get` transaction body (doloop.py lines 498-536) -/

/-- `WHERE lock_until <= UNIX_TIMESTAMP()` — true only for non-null
`lock_until` by SQL three-valued logic. -/
def tier1Pred (now : Time) (r : Row) : Bool :=
  match r.lock_until with
  | some t => decide (t ≤ now)
  | none => false

/-- `WHERE lock_until IS NULL AND (last_updated IS NULL OR
last_updated <= UNIX_TIMESTAMP() - min_loop_time)`. -/
def tier2Pred (now minLoop : Time) (r : Row) : Bool :=
  r.lock_until.isNone &&
    (match r.last_updated with
     | none => true
     | some u => decide (u ≤ now - minLoop))

/-- First `SELECT` of `get` (expired/bumped locks),
`ORDER BY lock_until, last_updated LIMIT limit`. -/
def selectBumped (now : Time) (limit : Nat) (tbl : Table) : List Int :=
  (((sortByLe bumpedLe (tbl.filter (tier1Pred now)))).take limit).map Row.id

/-- Second `SELECT` of `get` (unlocked rows),
`ORDER BY last_updated LIMIT limit`. -/
def selectUnlocked (now minLoop : Time) (limit : Nat) (tbl : Table) : List Int :=
  (((sortByLe unlockedLe (tbl.filter (tier2Pred now minLoop)))).take limit).map Row.id

/-- The id list accumulated by `get`'s query function: the first scan,
then — only if it returned fewer than `limit` ids — the second scan for
the remaining slots. -/
def getIds (now minLoop : Time) (limit : Nat) (tbl : Table) : List Int :=
  let ids := selectBumped now limit tbl
  if ids.length < limit then
    ids ++ selectUnlocked now minLoop (limit - ids.length) tbl
  else ids

/-- `UPDATE ... SET lock_until = UNIX_TIMESTAMP() + lock_for WHERE id IN ids`. -/
def updateLockUntil (t : Time) (ids : List Int) (tbl : Table) : Table :=
  tbl.map fun r => if r.id ∈ ids then { r with lock_until := some t } else r

/-- The whole `get` transaction body, run under the table WRITE lock:
returns the selected ids and the table after the `UPDATE` (skipped when
no ids were selected). -/
def get (now : Time) (limit : Nat) (lockFor minLoop : Time) (tbl : Table) :
    List Int × Table :=
  let ids := getIds now minLoop limit tbl
  (ids, if ids.isEmpty then tbl else updateLockUntil (now + lockFor) ids tbl)

/-! ### Membership lemmas for the scans -/

theorem mem_selectBumped {now : Time} {limit : Nat} {tbl : Table} {x : Int}
    (h : x ∈ selectBumped now limit tbl) :
    ∃ r ∈ tbl, r.id = x ∧ tier1Pred now r = true := by
  obtain ⟨r, hr, rfl⟩ := List.mem_map.1 h
  have hr' : r ∈ tbl.filter (tier1Pred now) :=
    (perm_sortByLe bumpedLe _).mem_iff.1 ((List.take_sublist _ _).subset hr)
  obtain ⟨hmem, hpred⟩ := List.mem_filter.1 hr'
  exact ⟨r, hmem, rfl, hpred⟩

theorem mem_selectUnlocked {now minLoop : Time} {limit : Nat} {tbl : Table} {x : Int}
    (h : x ∈ selectUnlocked now minLoop limit tbl) :
    ∃ r ∈ tbl, r.id = x ∧ tier2Pred now minLoop r = true := by
  obtain ⟨r, hr, rfl⟩ := List.mem_map.1 h
  have hr' : r ∈ tbl.filter (tier2Pred now minLoop) :=
    (perm_sortByLe unlockedLe _).mem_iff.1 ((List.take_sublist _ _).subset hr)
  obtain ⟨hmem, hpred⟩ := List.mem_filter.1 hr'
  exact ⟨r, hmem, rfl, hpred⟩

theorem mem_getIds {now minLoop : Time} {limit : Nat} {tbl : Table} {x : Int}
    (h : x ∈ getIds now minLoop limit tbl) :
    ∃ r ∈ tbl, r.id = x ∧
      (tier1Pred now r = true ∨ tier2Pred now minLoop r = true) := by
  unfold getIds at h
  simp only at h
  split at h
  · rcases List.mem_append.1 h with h1 | h2
    · obtain ⟨r, hr, hid, hp⟩ := mem_selectBumped h1
      exact ⟨r, hr, hid, Or.inl hp⟩
    · obtain ⟨r, hr, hid, hp⟩ := mem_selectUnlocked h2
      exact ⟨r, hr, hid, Or.inr hp⟩
  · obtain ⟨r, hr, hid, hp⟩ := mem_selectBumped h
    exact ⟨r, hr, hid, Or.inl hp⟩

theorem lock_of_mem_updateLockUntil {t : Time} {ids : List Int} {tbl : Table}
    {r : Row} (hr : r ∈ updateLockUntil t ids tbl) (hid : r.id ∈ ids) :
    r.lock_until = some t := by
  obtain ⟨s, _, rfl⟩ := List.mem_map.1 hr
  by_cases h : s.id ∈ ids
  · simp [h]
  · simp only [if_neg h]
    simp only [if_neg h] at hid
    exact absurd hid h

/-- Helper: every row of the post-`get` table whose id was returned
carries the fresh lock. -/
theorem get_locks_returned {now : Time} {limit : Nat} {lockFor minLoop : Time}
    {tbl : Table} {r : Row}
    (hr : r ∈ (get now limit lockFor minLoop tbl).2)
    (hid : r.id ∈ (get now limit lockFor minLoop tbl).1) :
    r.lock_until = some (now + lockFor) := by
  unfold get at hr hid
  simp only at hr hid
  by_cases hempty : (getIds now minLoop limit tbl).isEmpty
  · rw [List.isEmpty_iff] at hempty
    rw [hempty] at hid
    exact absurd hid (List.not_mem_nil _)
  · rw [if_neg hempty] at hr
    exact lock_of_mem_updateLockUntil hr hid

/-- C1: if a second `get` runs (serialized after the first by the table
WRITE lock, with no intervening `did`/`unlock`) before the first call's
lease expires, it cannot return any id the first call returned. -/
theorem get_no_double_lease (now₁ now₂ lockFor₁ lockFor₂ minLoop₁ minLoop₂ : Time)
    (limit₁ limit₂ : Nat) (tbl : Table)
    (hwin : now₂ < now₁ + lockFor₁) :
    ∀ x ∈ (get now₁ limit₁ lockFor₁ minLoop₁ tbl).1,
      x ∉ (get now₂ limit₂ lockFor₂ minLoop₂
            (get now₁ limit₁ lockFor₁ minLoop₁ tbl).2).1 := by
  intro x hx1 hx2
  set tbl₁ := (get now₁ limit₁ lockFor₁ minLoop₁ tbl).2 with htbl₁
  have hx2' : x ∈ getIds now₂ minLoop₂ limit₂ tbl₁ := hx2
  obtain ⟨r, hr, hid, hp⟩ := mem_getIds hx2'
  have hlock : r.lock_until = some (now₁ + lockFor₁) :=
    get_locks_returned hr (hid ▸ hx1)
  rcases hp with hp | hp
  · unfold tier1Pred at hp
    rw [hlock] at hp
    simp only [decide_eq_true_eq] at hp
    exact absurd (lt_of_lt_of_le hwin hp) (lt_irrefl _)
  · unfold tier2Pred at hp
    rw [hlock] at hp
    simp at hp

/-- Witness for `get_no_double_lease` at a concrete input: the first
call leases id 1 at time 0 for 10 seconds, so a second call at time 5
does not return it. -/
theorem get_no_double_lease_witness :
    1 ∈ (get 0 1 10 0 [⟨1, none, none⟩]).1 ∧
      1 ∉ (get 5 1 10 0 (get 0 1 10 0 [⟨1, none, none⟩]).2).1 :=
  ⟨by decide,
   get_no_double_lease 0 5 10 10 0 0 1 1 [⟨1, none, none⟩] (by norm_num) 1
     (by decide)⟩

/-! ### Shape of the batch returned by `get` -/

theorem tier1Pred_lock_ne_none {now : Time} {r : Row}
    (h : tier1Pred now r = true) : r.lock_until ≠ none := by
  unfold tier1Pred at h
  cases hl : r.lock_until with
  | none => rw [hl] at h; exact absurd h (by simp)
  | some t => simp [hl]

theorem tier2Pred_lock_none {now minLoop : Time} {r : Row}
    (h : tier2Pred now minLoop r = true) : r.lock_until = none := by
  unfold tier2Pred at h
  rw [Bool.and_eq_true] at h
  exact Option.isNone_iff_eq_none.1 h.1

theorem nodup_map_sortTake (f : Row → Int) (le : Row → Row → Bool) (n : Nat)
    (l : List Row) (h : (l.map f).Nodup) :
    (((sortByLe le l).take n).map f).Nodup := by
  have h1 : ((sortByLe le l).map f).Nodup :=
    (((perm_sortByLe le l).map f).nodup_iff).2 h
  exact ((List.take_sublist n (sortByLe le l)).map f).nodup h1

theorem selectBumped_nodup {now : Time} {limit : Nat} {tbl : Table}
    (hnd : (tbl.map Row.id).Nodup) : (selectBumped now limit tbl).Nodup :=
  nodup_map_sortTake Row.id bumpedLe limit _
    (((@List.filter_sublist Row (tier1Pred now) tbl).map Row.id).nodup hnd)

theorem selectUnlocked_nodup {now minLoop : Time} {limit : Nat} {tbl : Table}
    (hnd : (tbl.map Row.id).Nodup) : (selectUnlocked now minLoop limit tbl).Nodup :=
  nodup_map_sortTake Row.id unlockedLe limit _
    (((@List.filter_sublist Row (tier2Pred now minLoop) tbl).map Row.id).nodup hnd)

theorem selectBumped_length_le {now : Time} {limit : Nat} {tbl : Table} :
    (selectBumped now limit tbl).length ≤ limit := by
  unfold selectBumped
  rw [List.length_map, List.length_take]
  exact min_le_left _ _

theorem selectUnlocked_length_le {now minLoop : Time} {limit : Nat} {tbl : Table} :
    (selectUnlocked now minLoop limit tbl).length ≤ limit := by
  unfold selectUnlocked
  rw [List.length_map, List.length_take]
  exact min_le_left _ _

theorem selectUnlocked_zero {now minLoop : Time} {tbl : Table} :
    selectUnlocked now minLoop 0 tbl = [] := by
  simp [selectUnlocked]

/-- The accumulated id list is always the concatenation of the two
scans, the second scoped to the remaining slots (when the first scan
fills `limit`, the second contributes nothing). -/
theorem getIds_eq_append (now minLoop : Time) (limit : Nat) (tbl : Table) :
    getIds now minLoop limit tbl =
      selectBumped now limit tbl ++
        selectUnlocked now minLoop (limit - (selectBumped now limit tbl).length) tbl := by
  unfold getIds
  simp only
  split
  · rfl
  · next h =>
    have hlen : (selectBumped now limit tbl).length = limit :=
      le_antisymm selectBumped_length_le (le_of_not_lt h)
    rw [hlen, Nat.sub_self, selectUnlocked_zero, List.append_nil]

theorem getIds_nodup {now minLoop : Time} {limit : Nat} {tbl : Table}
    (hnd : (tbl.map Row.id).Nodup) : (getIds now minLoop limit tbl).Nodup := by
  rw [getIds_eq_append]
  rw [List.nodup_append]
  refine ⟨selectBumped_nodup hnd, selectUnlocked_nodup hnd, ?_⟩
  intro x hx1 hx2
  obtain ⟨r, hr, hid, hp1⟩ := mem_selectBumped hx1
  obtain ⟨s, hs, hid', hp2⟩ := mem_selectUnlocked hx2
  have : r = s := List.inj_on_of_nodup_map hnd hr hs (by rw [hid, hid'])
  exact tier1Pred_lock_ne_none hp1 (this ▸ tier2Pred_lock_none hp2)

theorem getIds_length_le {now minLoop : Time} {limit : Nat} {tbl : Table} :
    (getIds now minLoop limit tbl).length ≤ limit := by
  rw [getIds_eq_append, List.length_append]
  have h2 : (selectUnlocked now minLoop
      (limit - (selectBumped now limit tbl).length) tbl).length ≤
        limit - (selectBumped now limit tbl).length :=
    selectUnlocked_length_le
  have h1 : (selectBumped now limit tbl).length ≤ limit := selectBumped_length_le
  omega

/-- C4: for a `get` call on a table with unique ids, the returned list
is the first scan's ids followed by the second scan's ids for the
remaining slots, has no duplicates, has length at most `limit`, and the
same transaction's `UPDATE` leaves every returned id locked until
`now + lock_for`. -/
theorem get_batch_shape (now lockFor minLoop : Time) (limit : Nat) (tbl : Table)
    (hnd : (tbl.map Row.id).Nodup) (_hpos : 0 < limit) :
    (get now limit lockFor minLoop tbl).1 =
        selectBumped now limit tbl ++
          selectUnlocked now minLoop
            (limit - (selectBumped now limit tbl).length) tbl ∧
      (get now limit lockFor minLoop tbl).1.Nodup ∧
      (get now limit lockFor minLoop tbl).1.length ≤ limit ∧
      ∀ r ∈ (get now limit lockFor minLoop tbl).2,
        r.id ∈ (get now limit lockFor minLoop tbl).1 →
          r.lock_until = some (now + lockFor) := by
  refine ⟨getIds_eq_append now minLoop limit tbl, getIds_nodup hnd,
    getIds_length_le, ?_⟩
  intro r hr hid
  exact get_locks_returned hr hid

/-- Witness for `get_batch_shape`: a two-row table, one expired lock
and one never-updated row, at limit 2. -/
theorem get_batch_shape_witness :
    ([⟨1, none, some 3⟩, ⟨2, none, none⟩] : Table).map Row.id = [1, 2] ∧
      (get 10 2 60 0 [⟨1, none, some 3⟩, ⟨2, none, none⟩]).1 = [1, 2] := by
  have h := get_batch_shape 10 60 0 2 [⟨1, none, some 3⟩, ⟨2, none, none⟩]
    (by decide) (by decide)
  exact ⟨by decide, by rw [h.1]; decide⟩

/-- C3: contrary to the comment above the queries (doloop.py line 498,
"order by ID as a tie-breaker, to make tests consistent"), neither scan
orders by `id`: rows tying on the actual sort keys come back in
storage-defined order.  With two never-updated unlocked rows stored as
[id 20, id 10], `get` returns [20, 10], not the id-ordered [10, 20];
the same happens in the first tier for two rows with equal expired
`lock_until`. -/
theorem get_tie_order_not_by_id :
    (get 100 2 3600 0 [⟨20, none, none⟩, ⟨10, none, none⟩]).1 = [20, 10] ∧
      (get 100 2 3600 0 [⟨20, none, some 50⟩, ⟨10, none, some 50⟩]).1 = [20, 10] := by
  decide

/-! ### `INSERT IGNORE` and the mutating transaction bodies -/

/-- `_add` (doloop.py lines 358-382): `INSERT IGNORE` processes the
values left to right, inserting a row (`last_updated = lu`,
`lock_until` NULL) for each id not already present — also skipping ids
repeated within the statement — and reports the number of rows
inserted.  `lu` is `UNIX_TIMESTAMP()` when called from
`add(updated=True)` and NULL otherwise. -/
def insertIgnore (lu : Option Time) : List Int → Table → Table × Nat
  | [], tbl => (tbl, 0)
  | i :: ids, tbl =>
    if tbl.any (fun r => r.id == i) then insertIgnore lu ids tbl
    else
      let res := insertIgnore lu ids (tbl ++ [⟨i, lu, none⟩])
      (res.1, res.2 + 1)

/-- Everything the later proofs need about `insertIgnore`: it appends
some fresh rows (with the given `last_updated` and NULL `lock_until`),
counts exactly those rows, covers every requested id, and preserves id
uniqueness. -/
theorem insertIgnore_spec (lu : Option Time) (ids : List Int) (tbl : Table) :
    ∃ extra : Table,
      insertIgnore lu ids tbl = (tbl ++ extra, extra.length) ∧
      (∀ r ∈ extra, r.id ∈ ids ∧ r.last_updated = lu ∧ r.lock_until = none ∧
        ∀ s ∈ tbl, s.id ≠ r.id) ∧
      (∀ i ∈ ids, ∃ r ∈ tbl ++ extra, r.id = i) ∧
      ((tbl.map Row.id).Nodup → ((tbl ++ extra).map Row.id).Nodup) := by
  induction ids generalizing tbl with
  | nil =>
    exact ⟨[], by simp [insertIgnore], by simp, by simp, by simp⟩
  | cons i ids ih =>
    by_cases h : tbl.any (fun r => r.id == i) = true
    · obtain ⟨extra, heq, hprops, hex, hnd⟩ := ih tbl
      refine ⟨extra, ?_, ?_, ?_, hnd⟩
      · rw [insertIgnore, if_pos h]; exact heq
      · intro r hr
        obtain ⟨h1, h2, h3, h4⟩ := hprops r hr
        exact ⟨List.mem_cons_of_mem i h1, h2, h3, h4⟩
      · intro j hj
        rcases List.mem_cons.1 hj with rfl | hj'
        · obtain ⟨s, hs, hsj⟩ := List.any_eq_true.1 h
          exact ⟨s, List.mem_append_left _ hs, by simpa using hsj⟩
        · exact hex j hj'
    · obtain ⟨extra, heq, hprops, hex, hnd⟩ := ih (tbl ++ [⟨i, lu, none⟩])
      have hfresh : ∀ s ∈ tbl, s.id ≠ i := by
        intro s hs hsi
        apply h
        rw [List.any_eq_true]
        exact ⟨s, hs, by simp [hsi]⟩
      refine ⟨⟨i, lu, none⟩ :: extra, ?_, ?_, ?_, ?_⟩
      · rw [insertIgnore, if_neg h]
        simp only [heq, List.append_assoc, List.singleton_append, List.length_cons]
      · intro r hr
        rcases List.mem_cons.1 hr with rfl | hr'
        · exact ⟨List.mem_cons_self i ids, rfl, rfl, hfresh⟩
        · obtain ⟨h1, h2, h3, h4⟩ := hprops r hr'
          exact ⟨List.mem_cons_of_mem i h1, h2, h3,
            fun s hs => h4 s (List.mem_append_left _ hs)⟩
      · intro j hj
        rcases List.mem_cons.1 hj with rfl | hj'
        · exact ⟨⟨j, lu, none⟩, by simp, rfl⟩
        · obtain ⟨r, hr, hrj⟩ := hex j hj'
          refine ⟨r, ?_, hrj⟩
          rw [List.append_assoc, List.singleton_append] at hr
          exact hr
      · intro hnd0
        have hnd1 : ((tbl ++ [(⟨i, lu, none⟩ : Row)]).map Row.id).Nodup := by
          rw [List.map_append, List.nodup_append]
          refine ⟨hnd0, by simp, ?_⟩
          intro x hx hx'
          obtain ⟨s, hs, rfl⟩ := List.mem_map.1 hx
          simp only [List.map_cons, List.map_nil, List.mem_singleton] at hx'
          exact hfresh s hs hx'
        have := hnd hnd1
        rw [List.append_assoc, List.singleton_append] at this
        exact this

/-- Helper: a row of an id-extended table with the same id as a row of
the original table is that original row (given unique ids). -/
theorem mem_append_extra_of_id {tbl extra : Table}
    (hprops : ∀ r ∈ extra, ∀ s ∈ tbl, s.id ≠ r.id)
    (hnd : (tbl.map Row.id).Nodup)
    {r s : Row} (hr : r ∈ tbl) (hs : s ∈ tbl ++ extra) (hid : s.id = r.id) :
    s = r := by
  rcases List.mem_append.1 hs with hs' | hs'
  · exact List.inj_on_of_nodup_map hnd hs' hr hid
  · exact absurd hid.symm (hprops s hs' r hr)

/-- The table seen by the `UPDATE` of `did`/`unlock`/`bump`: the input
table, after the optional `_add(cursor, table, ids)` auto-add. -/
def preTable (ids : List Int) (autoAdd : Bool) (tbl : Table) : Table :=
  if autoAdd then (insertIgnore none ids tbl).1 else tbl

theorem preTable_extra (ids : List Int) (autoAdd : Bool) (tbl : Table) :
    ∃ extra : Table,
      preTable ids autoAdd tbl = tbl ++ extra ∧
      (∀ s ∈ extra, s.id ∈ ids ∧ s.last_updated = none ∧ s.lock_until = none ∧
        ∀ u ∈ tbl, u.id ≠ s.id) ∧
      ((tbl.map Row.id).Nodup → ((tbl ++ extra).map Row.id).Nodup) ∧
      (autoAdd = true → ∀ i ∈ ids, ∃ r ∈ tbl ++ extra, r.id = i) := by
  cases autoAdd with
  | false =>
    refine ⟨[], by simp [preTable], by simp, by simp, ?_⟩
    intro h
    exact absurd h Bool.false_ne_true
  | true =>
    obtain ⟨extra, heq, hprops, hex, hnd⟩ := insertIgnore_spec none ids tbl
    exact ⟨extra, by rw [preTable, if_pos rfl, heq], hprops, hnd, fun _ => hex⟩

/-! ### `bump` (doloop.py lines 696-719) -/

/-- The `WHERE` condition of `bump`'s `UPDATE` on a single row:
`lock_until IS NULL OR lock_until > UNIX_TIMESTAMP() + lock_for`. -/
def bumpCond (target : Time) (r : Row) : Bool :=
  match r.lock_until with
  | none => true
  | some u => decide (target < u)

/-- The `bump` transaction body: optional auto-add, then
`UPDATE ... SET lock_until = UNIX_TIMESTAMP() + lock_for WHERE
(lock_until IS NULL OR lock_until > UNIX_TIMESTAMP() + lock_for) AND id
IN ids`; the count is the number of rows the `UPDATE` touches (found
and changed coincide here, since a matched row always changes). -/
def bumpOp (now lockFor : Time) (ids : List Int) (autoAdd : Bool) (tbl : Table) :
    Table × Nat :=
  let tbl1 := preTable ids autoAdd tbl
  let target := now + lockFor
  (tbl1.map fun r =>
      if decide (r.id ∈ ids) && bumpCond target r then
        { r with lock_until := some target }
      else r,
   (tbl1.filter fun r => decide (r.id ∈ ids) && bumpCond target r).length)

/-- C5: `bump` never increases a non-null `lock_until`: after the call,
a previously locked/bumped row's `lock_until` is at most its old value,
and a row already at least as urgent (old `lock_until ≤ now + lock_for`)
is left entirely unchanged. -/
theorem bump_only_decreases (now lockFor : Time) (ids : List Int) (autoAdd : Bool)
    (tbl : Table) (hnd : (tbl.map Row.id).Nodup) :
    ∀ r ∈ tbl, ∀ t : Time, r.lock_until = some t →
      ∀ r' ∈ (bumpOp now lockFor ids autoAdd tbl).1, r'.id = r.id →
        (∃ t', r'.lock_until = some t' ∧ t' ≤ t) ∧
          (t ≤ now + lockFor → r' = r) := by
  intro r hr t ht r' hr' hid
  obtain ⟨extra, heqt, hprops, _, _⟩ := preTable_extra ids autoAdd tbl
  have hfresh : ∀ s ∈ extra, ∀ u ∈ tbl, u.id ≠ s.id :=
    fun s hs u hu => (hprops s hs).2.2.2 u hu
  simp only [bumpOp] at hr'
  rw [heqt] at hr'
  obtain ⟨s, hs, hmap⟩ := List.mem_map.1 hr'
  have hsid : r'.id = s.id := by
    rw [← hmap]
    split <;> rfl
  have hstbl : s ∈ tbl := by
    rcases List.mem_append.1 hs with h | h
    · exact h
    · exact absurd (hsid ▸ hid : s.id = r.id).symm (hfresh s h r hr)
  have hsr : s = r := List.inj_on_of_nodup_map hnd hstbl hr (by rw [← hsid, hid])
  subst hsr
  rw [← hmap]
  by_cases hcond : (decide (s.id ∈ ids) && bumpCond (now + lockFor) s) = true
  · rw [if_pos hcond]
    have hlt : now + lockFor < t := by
      have := (Bool.and_eq_true _ _ ▸ hcond).2
      unfold bumpCond at this
      rw [ht] at this
      exact of_decide_eq_true this
    exact ⟨⟨now + lockFor, rfl, le_of_lt hlt⟩,
      fun hle => absurd (lt_of_lt_of_le hlt hle) (lt_irrefl _)⟩
  · rw [if_neg hcond]
    exact ⟨⟨t, ht, le_refl t⟩, fun _ => rfl⟩

/-- Witness for `bump_only_decreases`: bumping id 1 (locked until 100)
at time 0 with `lock_for = 50` rewrites the lock to 50 ≤ 100; the
less-urgent direction is exercised with `lock_for = 200`, which leaves
the row unchanged. -/
theorem bump_only_decreases_witness :
    (∃ t', (Row.mk 1 none (some 50)).lock_until = some t' ∧ t' ≤ 100) ∧
      (Row.mk 1 none (some 100) : Row) = ⟨1, none, some 100⟩ :=
  ⟨(bump_only_decreases 0 50 [1] true [⟨1, none, some 100⟩] (by decide)
      ⟨1, none, some 100⟩ (by decide) 100 (by decide)
      ⟨1, none, some 50⟩ (by decide) (by decide)).1,
   (bump_only_decreases 0 200 [1] true [⟨1, none, some 100⟩] (by decide)
      ⟨1, none, some 100⟩ (by decide) 100 (by decide)
      ⟨1, none, some 100⟩ (by decide) (by decide)).2 (by norm_num)⟩

/-! ### `did` (doloop.py lines 539-585) -/

/-- The `did` transaction body: optional auto-add, then `UPDATE ... SET
last_updated = UNIX_TIMESTAMP(), lock_until = NULL WHERE id IN ids`.
The count is the `UPDATE`'s rowcount; MySQL reports rows found
(matched) or rows affected (changed) depending on the connection
(`foundRows`). -/
def didOp (now : Time) (ids : List Int) (autoAdd foundRows : Bool) (tbl : Table) :
    Table × Nat :=
  let tbl1 := preTable ids autoAdd tbl
  (tbl1.map fun r =>
      if r.id ∈ ids then { r with last_updated := some now, lock_until := none }
      else r,
   if foundRows then (tbl1.filter fun r => decide (r.id ∈ ids)).length
   else ((tbl1.filter fun r => decide (r.id ∈ ids)).filter fun r =>
       !decide (r.last_updated = some now ∧ r.lock_until = none)).length)

/-- Helper: after the `did` `UPDATE`, every row with a listed id is
marked updated-now and unlocked, whatever table the call ran on. -/
theorem didOp_post (now : Time) (ids : List Int) (autoAdd foundRows : Bool)
    (tbl : Table) :
    ∀ r ∈ (didOp now ids autoAdd foundRows tbl).1,
      r.id ∈ ids → r.last_updated = some now ∧ r.lock_until = none := by
  intro r hr hid
  simp only [didOp] at hr
  obtain ⟨s, _, hmap⟩ := List.mem_map.1 hr
  by_cases h : s.id ∈ ids
  · rw [← hmap, if_pos h]
    exact ⟨rfl, rfl⟩
  · rw [← hmap, if_neg h] at hid
    exact absurd hid h

/-- C7: after `did(ids)`, every listed id is present when `auto_add` is
on (absent rows are inserted first), and every listed id's row ends
with `last_updated = now` and no lock, regardless of its prior lease
state; an immediate second `did` just re-marks the completion time. -/
theorem did_marks_updated_and_unlocks (now now' : Time) (ids : List Int)
    (autoAdd foundRows : Bool) (tbl : Table) :
    (autoAdd = true →
      ∀ i ∈ ids, ∃ r ∈ (didOp now ids autoAdd foundRows tbl).1, r.id = i) ∧
    (∀ r ∈ (didOp now ids autoAdd foundRows tbl).1,
      r.id ∈ ids → r.last_updated = some now ∧ r.lock_until = none) ∧
    (∀ r ∈ (didOp now' ids autoAdd foundRows
        (didOp now ids autoAdd foundRows tbl).1).1,
      r.id ∈ ids → r.last_updated = some now' ∧ r.lock_until = none) := by
  refine ⟨?_, didOp_post now ids autoAdd foundRows tbl,
    didOp_post now' ids autoAdd foundRows _⟩
  intro ha i hi
  obtain ⟨extra, heqt, _, _, hcover⟩ := preTable_extra ids autoAdd tbl
  obtain ⟨r, hr, hrid⟩ := hcover ha i hi
  refine ⟨if r.id ∈ ids then { r with last_updated := some now, lock_until := none }
      else r, ?_, ?_⟩
  · simp only [didOp, heqt]
    exact List.mem_map_of_mem _ hr
  · split <;> exact hrid

/-- Witness for `did_marks_updated_and_unlocks`: `did([1, 2])` at time 7
on a table holding only id 1 (leased until 99): id 2 is auto-added, and
id 1 ends updated-at-7 and unlocked. -/
theorem did_marks_updated_and_unlocks_witness :
    (∃ r ∈ (didOp 7 [1, 2] true true [⟨1, some 5, some 99⟩]).1, r.id = 2) ∧
      ((⟨1, some 7, none⟩ : Row).last_updated = some 7 ∧
        (⟨1, some 7, none⟩ : Row).lock_until = none) :=
  ⟨(did_marks_updated_and_unlocks 7 0 [1, 2] true true [⟨1, some 5, some 99⟩]).1
      rfl 2 (by decide),
   (did_marks_updated_and_unlocks 7 0 [1, 2] true true [⟨1, some 5, some 99⟩]).2.1
      ⟨1, some 7, none⟩ (by decide) (by decide)⟩

/-! ### `unlock` (doloop.py lines 588-649) -/

/-- The `unlock` transaction body: optional auto-add, then
`UPDATE ... SET lock_until = NULL WHERE id IN ids`.  The returned tally
follows doloop.py lines 626-647: rows inserted by the auto-add plus the
`UPDATE`'s rowcount, corrected down to the `UPDATE`'s rowcount alone
when MySQL reported rows *found* and the sum double-counted the
auto-added rows (detected by exceeding `len(ids)`). -/
def unlockOp (ids : List Int) (autoAdd foundRows : Bool) (tbl : Table) :
    Table × Nat :=
  let tbl1 := preTable ids autoAdd tbl
  let added := if autoAdd then (insertIgnore none ids tbl).2 else 0
  let matched := (tbl1.filter fun r => decide (r.id ∈ ids)).length
  let changed := ((tbl1.filter fun r => decide (r.id ∈ ids)).filter
      fun r => !r.lock_until.isNone).length
  let updCnt := if foundRows then matched else changed
  (tbl1.map fun r => if r.id ∈ ids then { r with lock_until := none } else r,
   if autoAdd && decide (ids.length < added + updCnt) then updCnt
   else added + updCnt)

/-- Helper: on a table with unique ids, at most `ids.length` distinct
rows can match `WHERE id IN ids`. -/
theorem filter_ids_length_le {tbl1 : Table} (hnd1 : (tbl1.map Row.id).Nodup)
    (ids : List Int) :
    (tbl1.filter fun r => decide (r.id ∈ ids)).length ≤ ids.length := by
  have hnodup : ((tbl1.filter fun r => decide (r.id ∈ ids)).map Row.id).Nodup :=
    ((List.filter_sublist tbl1).map Row.id).nodup hnd1
  have hsub : ((tbl1.filter fun r => decide (r.id ∈ ids)).map Row.id) ⊆ ids := by
    intro x hx
    obtain ⟨r, hr, rfl⟩ := List.mem_map.1 hx
    exact of_decide_eq_true (List.mem_filter.1 hr).2
  calc (tbl1.filter fun r => decide (r.id ∈ ids)).length
      = ((tbl1.filter fun r => decide (r.id ∈ ids)).map Row.id).length := by
        rw [List.length_map]
    _ ≤ ids.length := (hnodup.subperm hsub).length_le

/-- C8 counterexample: `unlock([1, 1])` — a duplicated id — on a table
without id 1, over a connection that reports rows *found*: the
auto-added row is counted once by the `INSERT IGNORE` rowcount and
again by the `UPDATE` rowcount, and the double-count correction at
doloop.py lines 640-641 does not fire because its threshold
`len(ids) = 2` counts duplicates.  The returned tally is 2, exceeding
the 1 distinct id passed — the auto-created row *is* double-counted. -/
theorem unlock_duplicate_ids_overcount :
    ([1, 1] : List Int).dedup.length = 1 ∧
      (unlockOp [1, 1] true true []).2 = 2 := by
  decide

/-- C8 (amended): for a duplicate-free id collection, `unlock` clears
`lock_until` of every listed id and touches nothing else: a surviving
row keeps its `last_updated` (and is entirely unchanged when not
listed), auto-created rows come out with null `last_updated`, and the
returned tally never exceeds the number of ids passed (with duplicated
ids the tally can overshoot the distinct-id count, as the code's own
comment at doloop.py lines 644-646 concedes). -/
theorem unlock_clears_lock_only (ids : List Int) (autoAdd foundRows : Bool)
    (tbl : Table) (hnd : (tbl.map Row.id).Nodup) (_hids : ids.Nodup) :
    (∀ r ∈ tbl, ∀ r' ∈ (unlockOp ids autoAdd foundRows tbl).1, r'.id = r.id →
        r'.last_updated = r.last_updated ∧
          (r.id ∈ ids → r'.lock_until = none) ∧ (r.id ∉ ids → r' = r)) ∧
    (∀ r' ∈ (unlockOp ids autoAdd foundRows tbl).1,
        r'.id ∉ tbl.map Row.id → r'.last_updated = none) ∧
    (unlockOp ids autoAdd foundRows tbl).2 ≤ ids.length := by
  obtain ⟨extra, heqt, hprops, hndext, _⟩ := preTable_extra ids autoAdd tbl
  have hfresh : ∀ s ∈ extra, ∀ u ∈ tbl, u.id ≠ s.id :=
    fun s hs u hu => (hprops s hs).2.2.2 u hu
  refine ⟨?_, ?_, ?_⟩
  · intro r hr r' hr' hid
    simp only [unlockOp, heqt] at hr'
    obtain ⟨s, hs, hmap⟩ := List.mem_map.1 hr'
    have hsid : r'.id = s.id := by rw [← hmap]; split <;> rfl
    have hsr : s = r :=
      mem_append_extra_of_id hfresh hnd hr hs (by rw [← hsid, hid])
    subst hsr
    by_cases h : s.id ∈ ids
    · rw [← hmap, if_pos h]
      exact ⟨rfl, fun _ => rfl, fun hn => absurd h hn⟩
    · rw [← hmap, if_neg h]
      exact ⟨rfl, fun hmem => absurd hmem h, fun _ => rfl⟩
  · intro r' hr' hnew
    simp only [unlockOp, heqt] at hr'
    obtain ⟨s, hs, hmap⟩ := List.mem_map.1 hr'
    have hsid : r'.id = s.id := by rw [← hmap]; split <;> rfl
    have hsextra : s ∈ extra := by
      rcases List.mem_append.1 hs with h | h
      · exact absurd (List.mem_map_of_mem Row.id h) (hsid ▸ hnew)
      · exact h
    have hlast : s.last_updated = none := (hprops s hsextra).2.1
    rw [← hmap]
    split <;> simpa using hlast
  · have hnd1 : ((preTable ids autoAdd tbl).map Row.id).Nodup := by
      rw [heqt]; exact hndext hnd
    have hmatched := filter_ids_length_le hnd1 ids
    have hchanged : (((preTable ids autoAdd tbl).filter
        fun r => decide (r.id ∈ ids)).filter
          fun r => !r.lock_until.isNone).length ≤ ids.length :=
      le_trans (List.length_filter_le _ _) hmatched
    have hupd : (if foundRows then
        ((preTable ids autoAdd tbl).filter fun r => decide (r.id ∈ ids)).length
      else (((preTable ids autoAdd tbl).filter
          fun r => decide (r.id ∈ ids)).filter
            fun r => !r.lock_until.isNone).length) ≤ ids.length := by
      cases foundRows
      · simpa using hchanged
      · simpa using hmatched
    have htally : ∀ (aa : Bool) (added updCnt : Nat), updCnt ≤ ids.length →
        (aa = false → added = 0) →
        (if aa && decide (ids.length < added + updCnt) then updCnt
         else added + updCnt) ≤ ids.length := by
      intro aa added updCnt hu ha
      cases aa with
      | false => simpa [ha rfl] using hu
      | true =>
        simp only [Bool.true_and]
        by_cases h : ids.length < added + updCnt
        · simpa [h] using hu
        · simpa [h] using le_of_not_lt h
    simp only [unlockOp]
    exact htally autoAdd _ _ hupd (fun ha => by simp [ha])

/-- Witness for `unlock_clears_lock_only`: `unlock([1, 2])` on a table
with id 1 leased and updated at 5, auto-adding id 2; the tally is at
most 2 and id 1 keeps `last_updated = 5` while losing its lock. -/
theorem unlock_clears_lock_only_witness :
    ((⟨1, some 5, none⟩ : Row).last_updated =
        (⟨1, some 5, some 99⟩ : Row).last_updated ∧
      (⟨1, some 5, none⟩ : Row).lock_until = none) ∧
      (unlockOp [1, 2] true true [⟨1, some 5, some 99⟩]).2 ≤ 2 := by
  have h := unlock_clears_lock_only [1, 2] true true [⟨1, some 5, some 99⟩]
    (by decide) (by decide)
  have h1 := h.1 ⟨1, some 5, some 99⟩ (by decide) ⟨1, some 5, none⟩
    (by decide) (by decide)
  exact ⟨⟨h1.1, h1.2.1 (by decide)⟩, h.2.2⟩

/-! ### The transaction runner `_run` (doloop.py lines 175-226) -/

/-- Driver errors; deadlock and lock-wait timeout form the "transient
contention" class the spec talks about. -/
inductive DbErr where
  | deadlock
  | lockWaitTimeout
  | otherErr
deriving DecidableEq

/-- What one `_run` call produces: the outcome the caller sees, how
many times the unit of work was started, and whether the transaction
committed. -/
structure RunResult (α : Type) where
  result : Except DbErr α
  attempts : Nat
  committed : Bool

/-- `_run`: discards any prior transaction, locks/starts a transaction,
evaluates the unit of work once (`result = query(cursor)`), commits on
success unless `read_only` (then rolls back), and on any exception
rolls back, unlocks, and re-raises (`except: dbconn.rollback();
raise`).  The unit of work takes the attempt number so that a retry —
which the code never performs — would be observable; `_run` only ever
evaluates attempt 0. -/
def runTxn (readOnly : Bool) (query : Nat → Except DbErr α) : RunResult α :=
  match query 0 with
  | .ok a => ⟨.ok a, 1, !readOnly⟩
  | .error e => ⟨.error e, 1, false⟩

/-- C2 counterexample: a unit of work that deadlocks on its first
attempt and would succeed on any later attempt.  `_run` does not
retry: the deadlock reaches the caller (after a rollback and no
commit), against the claim that a transient contention error is
retried until it is invisible to the caller. -/
theorem run_deadlock_not_retried :
    runTxn false (fun n => if n = 0 then .error .deadlock else .ok 42) =
      ⟨.error .deadlock, 1, false⟩ := rfl

/-- C2 (amended): `_run` evaluates its unit of work exactly once and
the caller sees exactly that outcome: every error — deadlock and
lock-wait timeout included — is rolled back and propagated unchanged,
and a success commits unless the call was read-only. -/
theorem run_single_attempt (readOnly : Bool) (query : Nat → Except DbErr α) :
    (runTxn readOnly query).result = query 0 ∧
      (runTxn readOnly query).attempts = 1 ∧
      (∀ e, query 0 = .error e → (runTxn readOnly query).committed = false) ∧
      (∀ a, query 0 = .ok a → (runTxn readOnly query).committed = !readOnly) := by
  cases hq : query 0 with
  | ok a => refine ⟨?_, ?_, ?_, ?_⟩ <;> simp [runTxn, hq]
  | error e => refine ⟨?_, ?_, ?_, ?_⟩ <;> simp [runTxn, hq]

/-- Witness for `run_single_attempt`: a lock-wait timeout is propagated
without committing. -/
theorem run_single_attempt_witness :
    (runTxn false (fun _ =>
        (Except.error DbErr.lockWaitTimeout : Except DbErr Nat))).committed
      = false :=
  (run_single_attempt false (fun _ =>
      (Except.error DbErr.lockWaitTimeout : Except DbErr Nat))).2.2.1
    DbErr.lockWaitTimeout rfl

/-! ### Parameter validation of `get` (doloop.py lines 473-496) -/

/-- A Python value passed as a `get` parameter: an `int`/`long`, a
`float` (restricted to integral values, like all times in this model),
or a non-numeric value such as a string. -/
inductive PyVal where
  | pint : Int → PyVal
  | pfloat : Int → PyVal
  | pother : PyVal
deriving DecidableEq

/-- `isinstance(x, (int, long, float))`. -/
def PyVal.isNumber : PyVal → Bool
  | pint _ => true
  | pfloat _ => true
  | pother => false

/-- `isinstance(x, (int, long))`. -/
def PyVal.isInt : PyVal → Bool
  | pint _ => true
  | _ => false

/-- The numeric value (0 for the non-numeric constructor, which every
use is guarded against by the checks). -/
def PyVal.val : PyVal → Int
  | pint n => n
  | pfloat q => q
  | pother => 0

/-- The two validation error kinds `get` raises. -/
inductive LoopErr where
  | typeError
  | valueError
deriving DecidableEq

/-- `get` with its up-front validation, in source order (doloop.py
lines 477-491): `lock_for` must be a number, then positive;
`min_loop_time` must be a number; `limit` must be an integer, then
non-negative; `limit == 0` returns `[]` (line 495).  All of that
happens before any database access; the final component counts the
transactions opened (0 on every early exit). -/
def getCall (limit lockFor minLoop : PyVal) (now : Time) (tbl : Table) :
    Except LoopErr (List Int × Table) × Nat :=
  if !lockFor.isNumber then (.error .typeError, 0)
  else if !decide (0 < lockFor.val) then (.error .valueError, 0)
  else if !minLoop.isNumber then (.error .typeError, 0)
  else if !limit.isInt then (.error .typeError, 0)
  else if !decide (0 ≤ limit.val) then (.error .valueError, 0)
  else if limit.val = 0 then (.ok ([], tbl), 0)
  else (.ok (get now limit.val.toNat lockFor.val minLoop.val tbl), 1)

/-- C6: each invalid `get` parameter raises its validation error with
no database I/O, checked in source order (`lock_for` type, `lock_for`
sign, `min_loop_time` type, `limit` type, `limit` sign), and
`limit == 0` returns the empty list with no I/O. -/
theorem get_validates_before_io (limit lockFor minLoop : PyVal) (now : Time)
    (tbl : Table) :
    (lockFor.isNumber = false →
      getCall limit lockFor minLoop now tbl = (.error .typeError, 0)) ∧
    (lockFor.isNumber = true → lockFor.val ≤ 0 →
      getCall limit lockFor minLoop now tbl = (.error .valueError, 0)) ∧
    (lockFor.isNumber = true → 0 < lockFor.val → minLoop.isNumber = false →
      getCall limit lockFor minLoop now tbl = (.error .typeError, 0)) ∧
    (lockFor.isNumber = true → 0 < lockFor.val → minLoop.isNumber = true →
      limit.isInt = false →
      getCall limit lockFor minLoop now tbl = (.error .typeError, 0)) ∧
    (lockFor.isNumber = true → 0 < lockFor.val → minLoop.isNumber = true →
      ∀ n : Int, limit = .pint n → n < 0 →
      getCall limit lockFor minLoop now tbl = (.error .valueError, 0)) ∧
    (lockFor.isNumber = true → 0 < lockFor.val → minLoop.isNumber = true →
      limit = .pint 0 →
      getCall limit lockFor minLoop now tbl = (.ok ([], tbl), 0)) := by
  refine ⟨?_, ?_, ?_, ?_, ?_, ?_⟩
  · intro h
    simp [getCall, h]
  · intro h hle
    simp [getCall, h, not_lt.2 hle]
  · intro h hpos h2
    simp [getCall, h, hpos, h2]
  · intro h hpos h2 h3
    simp [getCall, h, hpos, h2, h3]
  · intro h hpos h2 n hn hneg
    subst hn
    have hval : (PyVal.pint n).val = n := rfl
    have hInt : (PyVal.pint n).isInt = true := rfl
    simp [getCall, h, h2, decide_eq_true hpos, hInt, hval,
      decide_eq_false (not_le.2 hneg)]
  · intro h hpos h2 hn
    subst hn
    have hval : (PyVal.pint 0).val = 0 := rfl
    have hInt : (PyVal.pint 0).isInt = true := rfl
    simp [getCall, h, h2, decide_eq_true hpos, hInt, hval]

/-- Witness for `get_validates_before_io`: `get(0)` with the default
durations returns `[]` with no I/O, and a negative limit raises a
value error with no I/O. -/
theorem get_validates_before_io_witness :
    getCall (.pint 0) (.pint 3600) (.pint 3600) 50 [⟨1, none, none⟩] =
        (.ok ([], [⟨1, none, none⟩]), 0) ∧
      getCall (.pint (-2)) (.pint 3600) (.pint 3600) 50 [⟨1, none, none⟩] =
        (.error .valueError, 0) :=
  ⟨(get_validates_before_io (.pint 0) (.pint 3600) (.pint 3600) 50
      [⟨1, none, none⟩]).2.2.2.2.2 rfl (by decide) rfl rfl,
   (get_validates_before_io (.pint (-2)) (.pint 3600) (.pint 3600) 50
      [⟨1, none, none⟩]).2.2.2.2.1 rfl (by decide) rfl (-2) rfl (by decide)⟩

/-! ### Remaining operations and the empty-collection fast path -/

/-- `remove` (doloop.py lines 385-415): `DELETE FROM ... WHERE id IN
ids`, returning the number of rows deleted. -/
def removeOp (ids : List Int) (tbl : Table) : Table × Nat :=
  (tbl.filter fun r => !decide (r.id ∈ ids),
   (tbl.filter fun r => decide (r.id ∈ ids)).length)

/-- `check` (doloop.py lines 724-764): for each listed id present in
the table, `(UNIX_TIMESTAMP() - last_updated, lock_until -
UNIX_TIMESTAMP())`, both NULL-propagating; read-only. -/
def checkOp (now : Time) (ids : List Int) (tbl : Table) :
    List (Int × (Option Time × Option Time)) :=
  (tbl.filter fun r => decide (r.id ∈ ids)).map fun r =>
    (r.id, (r.last_updated.map fun u => now - u,
            r.lock_until.map fun t => t - now))

/-- `add` as called: `if not ids: return 0` (doloop.py lines 348-350)
before `_run`; result, post table, transactions opened. -/
def addCall (now : Time) (updated : Bool) (ids : List Int) (tbl : Table) :
    Nat × Table × Nat :=
  if ids.isEmpty then (0, tbl, 0)
  else ((insertIgnore (if updated then some now else none) ids tbl).2,
        (insertIgnore (if updated then some now else none) ids tbl).1, 1)

/-- `remove` as called: lines 403-405 return 0 on an empty list. -/
def removeCall (ids : List Int) (tbl : Table) : Nat × Table × Nat :=
  if ids.isEmpty then (0, tbl, 0)
  else ((removeOp ids tbl).2, (removeOp ids tbl).1, 1)

/-- `did` as called: lines 569-571 return 0 on an empty list. -/
def didCall (now : Time) (ids : List Int) (autoAdd foundRows : Bool)
    (tbl : Table) : Nat × Table × Nat :=
  if ids.isEmpty then (0, tbl, 0)
  else ((didOp now ids autoAdd foundRows tbl).2,
        (didOp now ids autoAdd foundRows tbl).1, 1)

/-- `unlock` as called: lines 619-621 return 0 on an empty list. -/
def unlockCall (ids : List Int) (autoAdd foundRows : Bool) (tbl : Table) :
    Nat × Table × Nat :=
  if ids.isEmpty then (0, tbl, 0)
  else ((unlockOp ids autoAdd foundRows tbl).2,
        (unlockOp ids autoAdd foundRows tbl).1, 1)

/-- `bump` as called: lines 702-704 return 0 on an empty list (after
the `lock_for` type check, which our typed `lockFor` already embodies). -/
def bumpCall (now lockFor : Time) (ids : List Int) (autoAdd : Bool)
    (tbl : Table) : Nat × Table × Nat :=
  if ids.isEmpty then (0, tbl, 0)
  else ((bumpOp now lockFor ids autoAdd tbl).2,
        (bumpOp now lockFor ids autoAdd tbl).1, 1)

/-- `check` as called: lines 749-751 return `{}` on an empty list. -/
def checkCall (now : Time) (ids : List Int) (tbl : Table) :
    List (Int × (Option Time × Option Time)) × Nat :=
  if ids.isEmpty then ([], 0) else (checkOp now ids tbl, 1)

/-- C10: every id-collection operation, given an empty collection,
returns 0 (the empty map for `check`), leaves the table untouched, and
opens no transaction at all. -/
theorem empty_collection_fast_path (now lockFor : Time) (updated autoAdd foundRows : Bool)
    (tbl : Table) :
    addCall now updated [] tbl = (0, tbl, 0) ∧
      removeCall [] tbl = (0, tbl, 0) ∧
      didCall now [] autoAdd foundRows tbl = (0, tbl, 0) ∧
      unlockCall [] autoAdd foundRows tbl = (0, tbl, 0) ∧
      bumpCall now lockFor [] autoAdd tbl = (0, tbl, 0) ∧
      checkCall now [] tbl = ([], 0) :=
  ⟨rfl, rfl, rfl, rfl, rfl, rfl⟩

/-! ### `stats` (doloop.py lines 767-907)

`stats` runs four read-only queries in `READ UNCOMMITTED` mode and then
normalizes the result dictionary with

    for key in r:
        if key.endswith('_time'):
            r[key] = float(r[key] or 0.0)
        elif r[key] is None and not key.endswith('_id'):
            r[key] = 0
        elif isinstance(r[key], (long, decimal.Decimal)):
            r[key] = int(r[key])
    r['updated'] = r['total'] - r['new']

The result keys are a fixed finite set, so the two `endswith` tests on
the key strings are modelled by a key inductive with the two suffix
predicates; the nested `delayed` dictionary is filled before the loop
and is untouched by it (its value is a dict: not a `*_time` key, not
`None`, not a `long`/`Decimal`). -/

/-- A value of the stats dictionary: SQL NULL / Python `None`, a Python
integer (`int`, `long` and `Decimal` all end up as `int` here), or a
Python `float` (integral in this model, like all times). -/
inductive PyStat where
  | pnone : PyStat
  | pint : Int → PyStat
  | pfloat : Int → PyStat
deriving DecidableEq

/-- Python truthiness, as used by `r[key] or 0.0`. -/
def PyStat.truthy : PyStat → Bool
  | pnone => false
  | pint n => decide (n ≠ 0)
  | pfloat q => decide (q ≠ 0)

/-- The numeric value `float(·)` extracts. -/
def PyStat.toFloat : PyStat → Int
  | pnone => 0
  | pint n => n
  | pfloat q => q

/-- The numeric value after normalization (used by `r['total'] -
r['new']`). -/
def PyStat.toInt : PyStat → Int
  | pnone => 0
  | pint n => n
  | pfloat q => q

/-- The scalar keys of the stats dictionary. -/
inductive StatKey where
  | min_id | max_id | total | new
  | min_update_time | max_update_time
  | locked | min_lock_time | max_lock_time
  | bumped | min_bump_time | max_bump_time
deriving DecidableEq

/-- `key.endswith('_time')` on the fixed key set. -/
def StatKey.isTimeKey : StatKey → Bool
  | min_update_time | max_update_time | min_lock_time
  | max_lock_time | min_bump_time | max_bump_time => true
  | _ => false

/-- `key.endswith('_id')` on the fixed key set. -/
def StatKey.isIdKey : StatKey → Bool
  | min_id | max_id => true
  | _ => false

/-- One iteration of the normalization loop (doloop.py lines 893-900). -/
def normStat (k : StatKey) (v : PyStat) : PyStat :=
  if k.isTimeKey then .pfloat (if v.truthy then v.toFloat else 0)
  else if v == .pnone && !k.isIdKey then .pint 0
  else v

/-- `MIN(...)` over a column: NULL on no rows. -/
def sqlMin : List Int → Option Int
  | [] => none
  | x :: l => some ((sqlMin l).elim x (min x))

/-- `MAX(...)` over a column: NULL on no rows. -/
def sqlMax : List Int → Option Int
  | [] => none
  | x :: l => some ((sqlMax l).elim x (max x))

/-- A nullable driver value as a `PyStat`. -/
def optInt : Option Int → PyStat
  | none => .pnone
  | some n => .pint n

/-- `SUM(IF(last_updated IS NULL, 1, 0))`: NULL over zero rows,
otherwise the count of never-updated rows. -/
def rawNewCount (tbl : Table) : Option Int :=
  if tbl.isEmpty then none
  else some (tbl.filter fun r => r.last_updated.isNone).length

/-- `SUM(IF(last_updated <= UNIX_TIMESTAMP() - d, 1, 0))`: NULL over
zero rows; a NULL `last_updated` fails the comparison and counts 0. -/
def rawDelayedCount (now : Time) (tbl : Table) (d : Int) : Option Int :=
  if tbl.isEmpty then none
  else some (tbl.filter fun r =>
    match r.last_updated with
    | some u => decide (u ≤ now - d)
    | none => false).length

/-- Rows with `lock_until > UNIX_TIMESTAMP()` (the `locked` query). -/
def lockedRows (now : Time) (tbl : Table) : Table :=
  tbl.filter fun r =>
    match r.lock_until with
    | some t => decide (now < t)
    | none => false

/-- The stats dictionary (the `delayed` sub-dictionary maps
`float(threshold)` to `int(amount or 0)`). -/
structure StatsRec where
  min_id : PyStat
  max_id : PyStat
  total : PyStat
  new : PyStat
  min_update_time : PyStat
  max_update_time : PyStat
  delayed : List (Int × Int)
  locked : PyStat
  min_lock_time : PyStat
  max_lock_time : PyStat
  bumped : PyStat
  min_bump_time : PyStat
  max_bump_time : PyStat
  updated : PyStat
deriving DecidableEq

/-- The `stats` call: the four queries' raw (nullable) results, each
fed through the normalization loop; `updated` is derived afterwards
from the normalized `total` and `new`. -/
def statsOp (now : Time) (thresholds : List Int) (tbl : Table) : StatsRec :=
  { min_id := normStat .min_id (optInt (sqlMin (tbl.map Row.id)))
    max_id := normStat .max_id (optInt (sqlMax (tbl.map Row.id)))
    total := normStat .total (.pint tbl.length)
    new := normStat .new (optInt (rawNewCount tbl))
    min_update_time := normStat .min_update_time
      (optInt ((sqlMax (tbl.filterMap Row.last_updated)).map fun u => now - u))
    max_update_time := normStat .max_update_time
      (optInt ((sqlMin (tbl.filterMap Row.last_updated)).map fun u => now - u))
    delayed := thresholds.map fun d =>
      (d, match rawDelayedCount now tbl d with
          | none => 0
          | some n => n)
    locked := normStat .locked (.pint (lockedRows now tbl).length)
    min_lock_time := normStat .min_lock_time
      (optInt ((sqlMin ((lockedRows now tbl).filterMap Row.lock_until)).map
        fun t => t - now))
    max_lock_time := normStat .max_lock_time
      (optInt ((sqlMax ((lockedRows now tbl).filterMap Row.lock_until)).map
        fun t => t - now))
    bumped := normStat .bumped (.pint (tbl.filter (tier1Pred now)).length)
    min_bump_time := normStat .min_bump_time
      (optInt ((sqlMax ((tbl.filter (tier1Pred now)).filterMap Row.lock_until)).map
        fun t => now - t))
    max_bump_time := normStat .max_bump_time
      (optInt ((sqlMin ((tbl.filter (tier1Pred now)).filterMap Row.lock_until)).map
        fun t => now - t))
    updated := .pint ((normStat .total (.pint tbl.length)).toInt -
      (normStat .new (optInt (rawNewCount tbl))).toInt) }

theorem normStat_time_float (k : StatKey) (hk : k.isTimeKey = true)
    (v : PyStat) : ∃ q, normStat k v = .pfloat q :=
  ⟨if v.truthy then v.toFloat else 0, by simp [normStat, hk]⟩

theorem normStat_count_int (k : StatKey) (hk1 : k.isTimeKey = false)
    (hk2 : k.isIdKey = false) (x : Option Int) :
    ∃ n, normStat k (optInt x) = .pint n := by
  cases x with
  | none => exact ⟨0, by simp [normStat, optInt, hk1, hk2]⟩
  | some n => exact ⟨n, by simp [normStat, optInt, hk1]⟩

theorem normStat_pint (k : StatKey) (hk1 : k.isTimeKey = false) (m : Int) :
    normStat k (.pint m) = .pint m := by
  simp [normStat, hk1]

/-- C9: `stats` on an empty table yields `None` for `min_id`/`max_id`,
0 for every count (`total`, `new`, `updated`, `locked`, `bumped`, each
`delayed` entry) and float 0.0 for every `*_time` extremum; moreover on
any table the `*_time` keys always hold floats and every count key
holds an int — `min_id`/`max_id` are the only keys that can be `None`. -/
theorem stats_shape (now : Time) (thresholds : List Int) (tbl : Table) :
    (statsOp now thresholds [] =
      { min_id := .pnone, max_id := .pnone, total := .pint 0, new := .pint 0,
        min_update_time := .pfloat 0, max_update_time := .pfloat 0,
        delayed := thresholds.map fun d => (d, 0),
        locked := .pint 0, min_lock_time := .pfloat 0, max_lock_time := .pfloat 0,
        bumped := .pint 0, min_bump_time := .pfloat 0, max_bump_time := .pfloat 0,
        updated := .pint 0 }) ∧
    ((∃ n, (statsOp now thresholds tbl).total = .pint n) ∧
      (∃ n, (statsOp now thresholds tbl).new = .pint n) ∧
      (∃ n, (statsOp now thresholds tbl).locked = .pint n) ∧
      (∃ n, (statsOp now thresholds tbl).bumped = .pint n) ∧
      (∃ n, (statsOp now thresholds tbl).updated = .pint n)) ∧
    ((∃ q, (statsOp now thresholds tbl).min_update_time = .pfloat q) ∧
      (∃ q, (statsOp now thresholds tbl).max_update_time = .pfloat q) ∧
      (∃ q, (statsOp now thresholds tbl).min_lock_time = .pfloat q) ∧
      (∃ q, (statsOp now thresholds tbl).max_lock_time = .pfloat q) ∧
      (∃ q, (statsOp now thresholds tbl).min_bump_time = .pfloat q) ∧
      (∃ q, (statsOp now thresholds tbl).max_bump_time = .pfloat q)) := by
  refine ⟨rfl, ⟨?_, ?_, ?_, ?_, ?_⟩, ⟨?_, ?_, ?_, ?_, ?_, ?_⟩⟩
  · exact ⟨tbl.length, normStat_pint .total rfl _⟩
  · exact normStat_count_int .new rfl rfl _
  · exact ⟨(lockedRows now tbl).length, normStat_pint .locked rfl _⟩
  · exact ⟨(tbl.filter (tier1Pred now)).length, normStat_pint .bumped rfl _⟩
  · exact ⟨_, rfl⟩
  · exact normStat_time_float .min_update_time rfl _
  · exact normStat_time_float .max_update_time rfl _
  · exact normStat_time_float .min_lock_time rfl _
  · exact normStat_time_float .max_lock_time rfl _
  · exact normStat_time_float .min_bump_time rfl _
  · exact normStat_time_float .max_bump_time rfl _

end Doloop
